import Mathlib

/-!
Verification of the sliding-window rate limiter (class `RateLimiter`).

The embedding is shallow: the mutable `requests` map becomes a function
from keys to optional timestamp lists, `Date.now()` becomes an explicit
`now : Int` argument, and the mutating methods return the updated limiter
state next to their result object.  JS numbers holding millisecond
timestamps and counts are modelled as `Int`.
-/

abbrev Key := String

/-- Result object of the method `isAllowed`. -/
structure Decision where
  allowed : Bool
  remaining : Int
  resetTime : Int
  retryAfter : Int
deriving DecidableEq

/-- Result object of the method `getStats`. -/
structure Stats where
  requestCount : Int
  remaining : Int
  resetTime : Int
deriving DecidableEq

/-- State of a `RateLimiter` instance: the two configuration fields and the
`requests` map (key to timestamp list, `none` when the map has no entry). -/
structure RateLimiter where
  maxRequests : Int
  windowMs : Int
  requests : Key → Option (List Int)

/-- Constructor `new RateLimiter(maxRequests, windowMs)` (JS defaults 10 and
60000): it stores the configuration unchecked and starts with an empty
`requests` map.  The source performs no validation of the arguments. -/
def RateLimiter.new (maxRequests : Int) (windowMs : Int) : RateLimiter :=
  { maxRequests := maxRequests, windowMs := windowMs, requests := fun _ => none }

/-- Integer model of `Math.ceil(a / b)` for a positive divisor `b`. -/
def ceilDiv (a b : Int) : Int := -((-a).ediv b)

/-- Purge step shared by `isAllowed` and `getStats`:
`timestamps.filter(time => time > windowStart)`. -/
def purge (windowStart : Int) (timestamps : List Int) : List Int :=
  timestamps.filter (fun time => decide (windowStart < time))

/-- Method `isAllowed(ip)`, with `Date.now()` passed as `now`.  Returns the
decision object together with the updated limiter state; the source always
writes the purged (and possibly extended) list back into the map. -/
def RateLimiter.isAllowed (rl : RateLimiter) (ip : Key) (now : Int) :
    Decision × RateLimiter :=
  let windowStart := now - rl.windowMs
  let timestamps := purge windowStart ((rl.requests ip).getD [])
  let requestCount : Int := timestamps.length
  let allowed : Bool := decide (requestCount < rl.maxRequests)
  let timestamps2 := if allowed then timestamps ++ [now] else timestamps
  let finalCount : Int := if allowed then requestCount + 1 else requestCount
  let remaining : Int := max 0 (rl.maxRequests - finalCount)
  let resetTime : Int :=
    match timestamps2 with
    | [] => now + rl.windowMs
    | t :: _ => t + rl.windowMs
  ({ allowed := allowed
     remaining := remaining
     resetTime := resetTime
     retryAfter := if allowed then 0 else ceilDiv (resetTime - now) 1000 },
   { rl with requests := fun k => if k = ip then some timestamps2 else rl.requests k })

/-- Method `reset(ip)`: `this.requests.delete(ip)` removes the map entry. -/
def RateLimiter.reset (rl : RateLimiter) (ip : Key) : RateLimiter :=
  { rl with requests := fun k => if k = ip then none else rl.requests k }

/-- Method `getStats(ip)`, with `Date.now()` passed as `now`.  The source
filters into a local array and never writes to the map, so the returned
state is the input state. -/
def RateLimiter.getStats (rl : RateLimiter) (ip : Key) (now : Int) :
    Stats × RateLimiter :=
  match rl.requests ip with
  | none =>
    ({ requestCount := 0
       remaining := rl.maxRequests
       resetTime := now + rl.windowMs }, rl)
  | some ts =>
    let timestamps := purge (now - rl.windowMs) ts
    ({ requestCount := timestamps.length
       remaining := max 0 (rl.maxRequests - timestamps.length)
       resetTime :=
         match timestamps with
         | [] => now + rl.windowMs
         | t :: _ => t + rl.windowMs }, rl)

/-- One external call to the limiter: `isAllowed`, `reset` or `getStats`. -/
inductive Op where
  | check (ip : Key) (now : Int)
  | reset (ip : Key)
  | stats (ip : Key) (now : Int)
deriving DecidableEq

def Op.isStats : Op → Bool
  | .stats _ _ => true
  | _ => false

/-- Effect of one call on the limiter state. -/
def applyOp (rl : RateLimiter) : Op → RateLimiter
  | .check ip now => (rl.isAllowed ip now).2
  | .reset ip => rl.reset ip
  | .stats ip now => (rl.getStats ip now).2

/-- Effect of a sequence of calls on the limiter state. -/
def runOps (rl : RateLimiter) (ops : List Op) : RateLimiter :=
  ops.foldl applyOp rl

/-- Instants of the `check` calls of a sequence, in call order. -/
def checkTimes : List Op → List Int
  | [] => []
  | .check _ now :: ops => now :: checkTimes ops
  | .reset _ :: ops => checkTimes ops
  | .stats _ _ :: ops => checkTimes ops

/-- All of the given `check` instants for one key are admitted in turn. -/
def allAllowed (rl : RateLimiter) (k : Key) : List Int → Bool
  | [] => true
  | t :: ts =>
    let r := rl.isAllowed k t
    r.1.allowed && allAllowed r.2 k ts

def keyA : Key := "a"
def keyB : Key := "b"

/-! Basic lemmas about the embedding. -/

theorem purge_sublist (ws : Int) (ts : List Int) : (purge ws ts).Sublist ts :=
  List.filter_sublist ts

theorem purge_length_le (ws : Int) (ts : List Int) :
    (purge ws ts).length ≤ ts.length :=
  List.length_filter_le _ ts

theorem mem_purge (ws : Int) (ts : List Int) (x : Int) :
    x ∈ purge ws ts ↔ x ∈ ts ∧ ws < x := by
  simp [purge, List.mem_filter]

theorem getStats_state (rl : RateLimiter) (ip : Key) (now : Int) :
    (rl.getStats ip now).2 = rl := by
  cases h : rl.requests ip <;> simp [RateLimiter.getStats, h]

theorem isAllowed_requests (rl : RateLimiter) (ip : Key) (now : Int) (k : Key) :
    ((rl.isAllowed ip now).2).requests k =
      if k = ip then
        some
          (if ((purge (now - rl.windowMs) ((rl.requests ip).getD [])).length : Int) <
              rl.maxRequests then
            purge (now - rl.windowMs) ((rl.requests ip).getD []) ++ [now]
          else
            purge (now - rl.windowMs) ((rl.requests ip).getD []))
      else rl.requests k := by
  simp only [RateLimiter.isAllowed, decide_eq_true_eq]

theorem applyOp_maxRequests (rl : RateLimiter) (op : Op) :
    (applyOp rl op).maxRequests = rl.maxRequests := by
  cases op with
  | check ip now => rfl
  | reset ip => rfl
  | stats ip now => rw [applyOp, getStats_state]

theorem applyOp_windowMs (rl : RateLimiter) (op : Op) :
    (applyOp rl op).windowMs = rl.windowMs := by
  cases op with
  | check ip now => rfl
  | reset ip => rfl
  | stats ip now => rw [applyOp, getStats_state]

/-! Length invariant behind the quota bound. -/

def BoundedBy (rl : RateLimiter) : Prop :=
  ∀ k ts, rl.requests k = some ts → (ts.length : Int) ≤ rl.maxRequests

theorem boundedBy_applyOp (rl : RateLimiter) (op : Op)
    (h0 : 0 ≤ rl.maxRequests) (h : BoundedBy rl) : BoundedBy (applyOp rl op) := by
  cases op with
  | check ip now =>
    intro k ts hts
    rw [applyOp] at hts
    rw [isAllowed_requests] at hts
    show (ts.length : Int) ≤ rl.maxRequests
    by_cases hk : k = ip
    · rw [if_pos hk] at hts
      have hts2 := Option.some.inj hts
      by_cases hc :
          ((purge (now - rl.windowMs) ((rl.requests ip).getD [])).length : Int) <
            rl.maxRequests
      · rw [if_pos hc] at hts2
        have : ts.length = (purge (now - rl.windowMs) ((rl.requests ip).getD [])).length + 1 := by
          rw [← hts2, List.length_append, List.length_singleton]
        rw [this]
        push_cast
        omega
      · rw [if_neg hc] at hts2
        cases hip : rl.requests ip with
        | none =>
          rw [hip] at hts2
          simp only [Option.getD_none, purge, List.filter_nil] at hts2
          rw [← hts2]
          simpa using h0
        | some l =>
          have h1 : (l.length : Int) ≤ rl.maxRequests := h ip l hip
          have h2 : ts.length ≤ l.length := by
            rw [← hts2, hip]
            simpa using purge_length_le (now - rl.windowMs) l
          omega
    · rw [if_neg hk] at hts
      exact h k ts hts
  | reset ip =>
    intro k ts hts
    dsimp only [applyOp, RateLimiter.reset] at hts
    show (ts.length : Int) ≤ rl.maxRequests
    by_cases hk : k = ip
    · simp [hk] at hts
    · rw [if_neg hk] at hts
      exact h k ts hts
  | stats ip now =>
    rw [applyOp, getStats_state]
    exact h

theorem boundedBy_runOps (ops : List Op) : ∀ rl : RateLimiter,
    0 ≤ rl.maxRequests → BoundedBy rl → BoundedBy (runOps rl ops) := by
  induction ops with
  | nil => intro rl _ h; exact h
  | cons op rest ih =>
    intro rl h0 h
    have h0b : 0 ≤ (applyOp rl op).maxRequests := by
      rw [applyOp_maxRequests]; exact h0
    exact ih (applyOp rl op) h0b (boundedBy_applyOp rl op h0 h)

theorem runOps_maxRequests (ops : List Op) : ∀ rl : RateLimiter,
    (runOps rl ops).maxRequests = rl.maxRequests := by
  induction ops with
  | nil => intro rl; rfl
  | cons op rest ih =>
    intro rl
    have := ih (applyOp rl op)
    rw [applyOp_maxRequests] at this
    exact this

/-- C1: quota bound invariant.  Starting from a fresh limiter with positive
`maxRequests` and `windowMs`, after any sequence of `isAllowed`, `reset` and
`getStats` calls, for every key and every observation instant `t` the number
of stored timestamps strictly greater than `t - windowMs` is at most
`maxRequests`. -/
theorem quota_bound (maxR W : Int) (hmax : 0 < maxR) (hW : 0 < W)
    (ops : List Op) (k : Key) (t : Int) :
    ((purge (t - W) (((runOps (RateLimiter.new maxR W) ops).requests k).getD [])).length : Int)
      ≤ maxR := by
  have hb : BoundedBy (runOps (RateLimiter.new maxR W) ops) := by
    refine boundedBy_runOps ops (RateLimiter.new maxR W) (le_of_lt hmax) ?_
    intro k2 ts h
    simp [RateLimiter.new] at h
  cases hreq : (runOps (RateLimiter.new maxR W) ops).requests k with
  | none =>
    simp only [Option.getD_none, purge, List.filter_nil, List.length_nil]
    exact_mod_cast le_of_lt hmax
  | some l =>
    have h1 := hb k l hreq
    rw [runOps_maxRequests] at h1
    have h2 := purge_length_le (t - W) l
    simp only [Option.getD_some]
    have h1b : (l.length : Int) ≤ maxR := h1
    omega

/-- C1 witness: a concrete run staying within the quota. -/
theorem quota_bound_witness :
    ((purge (3 - 5) (((runOps (RateLimiter.new 2 5)
        [Op.check keyA 0, Op.check keyA 1, Op.check keyA 2, Op.stats keyA 2,
         Op.reset keyB, Op.check keyA 3]).requests keyA).getD [])).length : Int) ≤ 2 :=
  quota_bound 2 5 (by decide) (by decide)
    [Op.check keyA 0, Op.check keyA 1, Op.check keyA 2, Op.stats keyA 2,
     Op.reset keyB, Op.check keyA 3] keyA 3

theorem isAllowed_resetTime (rl : RateLimiter) (ip : Key) (now : Int) :
    (rl.isAllowed ip now).1.resetTime =
      (match ((rl.isAllowed ip now).2.requests ip).getD [] with
       | [] => now + rl.windowMs
       | t0 :: _ => t0 + rl.windowMs) := by
  rw [isAllowed_requests, if_pos rfl]
  by_cases hc : ((purge (now - rl.windowMs) ((rl.requests ip).getD [])).length : Int) <
      rl.maxRequests
  · simp [RateLimiter.isAllowed, hc]
  · simp [RateLimiter.isAllowed, hc]

/-- C2: decision formula of `isAllowed`.  Writing `p` for the purged list
(the stored timestamps strictly inside the window): when `p.length` is below
`maxRequests` the call appends `now`, allows, reports
`remaining = maxRequests - (p.length + 1)` and `retryAfter = 0`; otherwise it
stores `p` unchanged, denies, reports `remaining = 0` and
`retryAfter = ceil((resetTime - now) / 1000)`; in both cases `resetTime` is
the head of the stored list plus `windowMs` when that list is non-empty, else
`now + windowMs`. -/
theorem check_decision_formula (rl : RateLimiter) (ip : Key) (now : Int) :
    (((purge (now - rl.windowMs) ((rl.requests ip).getD [])).length : Int) < rl.maxRequests →
      (rl.isAllowed ip now).1.allowed = true ∧
      (rl.isAllowed ip now).1.remaining =
        rl.maxRequests -
          (((purge (now - rl.windowMs) ((rl.requests ip).getD [])).length : Int) + 1) ∧
      (rl.isAllowed ip now).1.retryAfter = 0 ∧
      (rl.isAllowed ip now).2.requests ip =
        some (purge (now - rl.windowMs) ((rl.requests ip).getD []) ++ [now])) ∧
    (rl.maxRequests ≤ ((purge (now - rl.windowMs) ((rl.requests ip).getD [])).length : Int) →
      (rl.isAllowed ip now).1.allowed = false ∧
      (rl.isAllowed ip now).1.remaining = 0 ∧
      (rl.isAllowed ip now).1.retryAfter =
        ceilDiv ((rl.isAllowed ip now).1.resetTime - now) 1000 ∧
      (rl.isAllowed ip now).2.requests ip =
        some (purge (now - rl.windowMs) ((rl.requests ip).getD []))) ∧
    (rl.isAllowed ip now).1.resetTime =
      (match ((rl.isAllowed ip now).2.requests ip).getD [] with
       | [] => now + rl.windowMs
       | t0 :: _ => t0 + rl.windowMs) := by
  refine ⟨?_, ?_, isAllowed_resetTime rl ip now⟩
  · intro hc
    refine ⟨?_, ?_, ?_, ?_⟩
    · simp [RateLimiter.isAllowed, hc]
    · simp [RateLimiter.isAllowed, hc]
      omega
    · simp [RateLimiter.isAllowed, hc]
    · rw [isAllowed_requests, if_pos rfl, if_pos hc]
  · intro hle
    have hc : ¬ ((purge (now - rl.windowMs) ((rl.requests ip).getD [])).length : Int) <
        rl.maxRequests := not_lt.mpr hle
    refine ⟨?_, ?_, ?_, ?_⟩
    · simp [RateLimiter.isAllowed, hc]
    · simp [RateLimiter.isAllowed, hc]
      omega
    · simp [RateLimiter.isAllowed, hc]
    · rw [isAllowed_requests, if_pos rfl, if_neg hc]

/-- C2 witness: the spec scenario with quota 2 and window 5000 ms, calls
admitted at instants 0 and 1000, and the call at 2000 denied with
`retryAfter = 3`. -/
theorem check_decision_formula_witness :
    ((runOps (RateLimiter.new 2 5000) [Op.check keyA 0, Op.check keyA 1000]).isAllowed keyA
        2000).1.allowed = false ∧
    ((runOps (RateLimiter.new 2 5000) [Op.check keyA 0, Op.check keyA 1000]).isAllowed keyA
        2000).1.retryAfter = 3 := by
  have h :=
    (check_decision_formula
        (runOps (RateLimiter.new 2 5000) [Op.check keyA 0, Op.check keyA 1000]) keyA 2000).2.1
      (by decide)
  refine ⟨h.1, ?_⟩
  rw [h.2.2.1]
  decide

theorem runOps_cons (rl : RateLimiter) (op : Op) (ops : List Op) :
    runOps rl (op :: ops) = runOps (applyOp rl op) ops := rfl

/-- C3 evaluation: the constructor performs no validation.  Constructing with
`maxRequests = 0` and `windowMs = -5` succeeds, simply storing the invalid
values, and the instance then answers calls normally (here denying, since no
count is below a quota of 0); no `ConfigurationError` exists in the source. -/
theorem constructor_accepts_invalid :
    RateLimiter.new 0 (-5) =
      { maxRequests := 0, windowMs := -5, requests := fun _ => none } ∧
    ((RateLimiter.new 0 (-5)).isAllowed keyA 100).1.allowed = false :=
  ⟨rfl, by decide⟩

/-- C4 evaluation: no eviction exists.  With a 5 ms window, after a single
admitted call for key `a` at instant 0 the entry for `a` is still in the map
at instant 2000000 (idle for over half an hour, far past any eviction
horizon), untouched by calls on other keys or by `getStats`. -/
theorem no_eviction_entry_retained :
    (runOps (RateLimiter.new 2 5)
        [Op.check keyA 0, Op.check keyB 1000000, Op.stats keyA 2000000]).requests keyA
      = some [0] := by decide

/-- C5 counterexample: `reset` destroys the map entry.  After an admitted
call for key `a` and then `reset(a)`, the map holds no entry for `a` at all,
contradicting the claim that the entry survives with a cleared timestamp
list. -/
theorem reset_deletes_entry_counterexample :
    (runOps (RateLimiter.new 2 10000) [Op.check keyA 0, Op.reset keyA]).requests keyA
      = none := by decide

/-- C5 amended: `reset(key)` unconditionally removes the key's entry from the
store (forgetting all history), leaves every other key's entry unchanged and
does not touch the configuration. -/
theorem reset_effect_frame (rl : RateLimiter) (k k2 : Key) (h : k2 ≠ k) :
    (rl.reset k).requests k = none ∧
    (rl.reset k).requests k2 = rl.requests k2 ∧
    (rl.reset k).maxRequests = rl.maxRequests ∧
    (rl.reset k).windowMs = rl.windowMs := by
  refine ⟨?_, ?_, rfl, rfl⟩
  · simp [RateLimiter.reset]
  · simp [RateLimiter.reset, h]

/-- C5 amended witness: reset of key `a` on a fresh limiter. -/
theorem reset_effect_frame_witness :
    ((RateLimiter.new 2 10000).reset keyA).requests keyA = none ∧
    ((RateLimiter.new 2 10000).reset keyA).requests keyB =
      (RateLimiter.new 2 10000).requests keyB ∧
    ((RateLimiter.new 2 10000).reset keyA).maxRequests = 2 ∧
    ((RateLimiter.new 2 10000).reset keyA).windowMs = 10000 :=
  reset_effect_frame (RateLimiter.new 2 10000) keyA keyB (by decide)

/-- C7: stats is read-only.  `getStats` returns the state unchanged, and
deleting every `stats` call from a call sequence leaves the final limiter
state (hence the outcome of every later call) unchanged. -/
theorem stats_readonly :
    (∀ (rl : RateLimiter) (ip : Key) (now : Int), (rl.getStats ip now).2 = rl) ∧
    (∀ (rl : RateLimiter) (ops : List Op),
      runOps rl (ops.filter (fun op => !op.isStats)) = runOps rl ops) := by
  refine ⟨getStats_state, ?_⟩
  intro rl ops
  induction ops generalizing rl with
  | nil => rfl
  | cons op rest ih =>
    cases op with
    | check ip now =>
      have hf : ((Op.check ip now :: rest).filter fun op => !op.isStats) =
          Op.check ip now :: (rest.filter fun op => !op.isStats) := by
        simp [Op.isStats]
      rw [hf, runOps_cons, runOps_cons]
      exact ih _
    | reset ip =>
      have hf : ((Op.reset ip :: rest).filter fun op => !op.isStats) =
          Op.reset ip :: (rest.filter fun op => !op.isStats) := by
        simp [Op.isStats]
      rw [hf, runOps_cons, runOps_cons]
      exact ih _
    | stats ip now =>
      have hf : ((Op.stats ip now :: rest).filter fun op => !op.isStats) =
          rest.filter fun op => !op.isStats := by
        simp [Op.isStats]
      rw [hf, runOps_cons,
        show applyOp rl (Op.stats ip now) = rl from getStats_state rl ip now]
      exact ih _

/-- C8: half-open window boundary.  The purge step keeps exactly the stored
entries strictly greater than `windowStart`; in particular an entry equal to
`windowStart` is expired.  Both `isAllowed` and `getStats` apply this purge
with `windowStart = now - windowMs`: `isAllowed` stores the purged list
(plus `now` when admitted) and `getStats` counts the purged list. -/
theorem half_open_boundary (windowStart : Int) (ts : List Int) (x : Int) :
    (x ∈ purge windowStart ts ↔ x ∈ ts ∧ windowStart < x) ∧
    windowStart ∉ purge windowStart ts ∧
    (∀ (rl : RateLimiter) (ip : Key) (now : Int),
      (rl.isAllowed ip now).2.requests ip =
        some (purge (now - rl.windowMs) ((rl.requests ip).getD []) ++
          (if ((purge (now - rl.windowMs) ((rl.requests ip).getD [])).length : Int) <
              rl.maxRequests then [now] else []))) ∧
    (∀ (rl : RateLimiter) (ip : Key) (now : Int),
      (rl.getStats ip now).1.requestCount =
        ((purge (now - rl.windowMs) ((rl.requests ip).getD [])).length : Int)) := by
  refine ⟨mem_purge windowStart ts x, ?_, ?_, ?_⟩
  · intro hmem
    exact absurd ((mem_purge _ _ _).mp hmem).2 (lt_irrefl _)
  · intro rl ip now
    rw [isAllowed_requests, if_pos rfl]
    by_cases hc : ((purge (now - rl.windowMs) ((rl.requests ip).getD [])).length : Int) <
        rl.maxRequests
    · rw [if_pos hc, if_pos hc]
    · rw [if_neg hc, if_neg hc, List.append_nil]
  · intro rl ip now
    cases hip : rl.requests ip with
    | none => simp [RateLimiter.getStats, hip, purge]
    | some l => simp [RateLimiter.getStats, hip]

/-- C8 witness: with `windowStart = 1`, the stored entry 2 survives the purge
and the boundary entry 1 is expired. -/
theorem half_open_boundary_witness :
    ((2 : Int) ∈ purge 1 [1, 2]) ∧ ((1 : Int) ∉ purge 1 [1, 2]) :=
  ⟨(half_open_boundary 1 [1, 2] 2).1.mpr (by decide),
   (half_open_boundary 1 [1, 2] 2).2.1⟩

/-- C10: stats on an unknown key.  When the map has no entry for the key,
`getStats` reports zero requests, the full quota and `resetTime = now +
windowMs`, and it leaves the state unchanged (no entry is created). -/
theorem getStats_unknown_key (rl : RateLimiter) (k : Key) (now : Int)
    (h : rl.requests k = none) :
    (rl.getStats k now).1 =
      { requestCount := 0, remaining := rl.maxRequests, resetTime := now + rl.windowMs } ∧
    (rl.getStats k now).2 = rl := by
  constructor
  · simp [RateLimiter.getStats, h]
  · exact getStats_state rl k now

/-- C10 witness: stats for a never-seen key on a fresh limiter. -/
theorem getStats_unknown_key_witness :
    ((RateLimiter.new 4 10000).getStats keyA 7).1 =
      { requestCount := 0, remaining := 4, resetTime := 10007 } ∧
    ((RateLimiter.new 4 10000).getStats keyA 7).2 = RateLimiter.new 4 10000 := by
  have h := getStats_unknown_key (RateLimiter.new 4 10000) keyA 7 rfl
  exact ⟨by rw [h.1]; decide, h.2⟩

theorem allAllowed_of_len : ∀ (times : List Int) (rl : RateLimiter) (k : Key),
    ((((rl.requests k).getD []).length : Int) + times.length ≤ rl.maxRequests) →
    allAllowed rl k times = true := by
  intro times
  induction times with
  | nil => intro rl k _; rfl
  | cons t ts ih =>
    intro rl k h
    simp only [List.length_cons] at h
    push_cast at h
    have h2 := purge_length_le (t - rl.windowMs) ((rl.requests k).getD [])
    have hplen : ((purge (t - rl.windowMs) ((rl.requests k).getD [])).length : Int) <
        rl.maxRequests := by omega
    have hallowed : (rl.isAllowed k t).1.allowed = true := by
      simp [RateLimiter.isAllowed, hplen]
    rw [allAllowed, hallowed, Bool.true_and]
    apply ih
    have hmax : (rl.isAllowed k t).2.maxRequests = rl.maxRequests := rfl
    rw [hmax, isAllowed_requests, if_pos rfl, if_pos hplen]
    simp only [Option.getD_some, List.length_append, List.length_singleton]
    push_cast
    omega

/-- C6: reset restores the full quota.  After `reset(key)`, the next
`maxRequests` calls to `isAllowed` for that key (here at instants lying
within one window of each other) are all admitted, whatever the prior
history. -/
theorem reset_restores_quota (rl : RateLimiter) (k : Key) (times : List Int)
    (hlen : (times.length : Int) ≤ rl.maxRequests)
    (hwin : ∀ s ∈ times, ∀ t ∈ times, t - s < rl.windowMs) :
    allAllowed (rl.reset k) k times = true := by
  apply allAllowed_of_len
  have hk : (rl.reset k).requests k = none := by simp [RateLimiter.reset]
  rw [hk]
  simpa using hlen

/-- C6 witness: the spec scenario of a quota of 2 fully consumed (third call
denied), then `reset` and two fresh calls both admitted. -/
theorem reset_restores_quota_witness :
    allAllowed
      ((runOps (RateLimiter.new 2 10000)
          [Op.check keyA 0, Op.check keyA 1, Op.check keyA 2]).reset keyA)
      keyA [3, 4] = true :=
  reset_restores_quota
    (runOps (RateLimiter.new 2 10000) [Op.check keyA 0, Op.check keyA 1, Op.check keyA 2])
    keyA [3, 4] (by decide) (by decide)

/-- C9 counterexample: two admitted calls at the same instant store the
timestamp twice, so the stored sequence is `[5, 5]`, sorted but not strictly
increasing. -/
theorem strict_increase_counterexample :
    ¬ ((((runOps (RateLimiter.new 2 10000)
        [Op.check keyA 5, Op.check keyA 5]).requests keyA).getD []).Pairwise (· < ·)) := by
  decide

/-- Every stored list is nondecreasing with all entries at most `b`. -/
def SortedBounded (rl : RateLimiter) (b : Int) : Prop :=
  ∀ k l, rl.requests k = some l → l.Pairwise (· ≤ ·) ∧ ∀ x ∈ l, x ≤ b

theorem sortedBounded_isAllowed (rl : RateLimiter) (b t : Int) (k0 : Key)
    (h : SortedBounded rl b) (hbt : b ≤ t) :
    SortedBounded (rl.isAllowed k0 t).2 t := by
  intro k l hl
  rw [isAllowed_requests] at hl
  by_cases hk : k = k0
  · rw [if_pos hk] at hl
    have hl2 := Option.some.inj hl
    have hstored : (((rl.requests k0).getD []).Pairwise (· ≤ ·)) ∧
        ∀ x ∈ (rl.requests k0).getD [], x ≤ b := by
      cases hip : rl.requests k0 with
      | none => simp
      | some l0 => simpa using h k0 l0 hip
    have hp : (purge (t - rl.windowMs) ((rl.requests k0).getD [])).Pairwise (· ≤ ·) :=
      hstored.1.sublist (purge_sublist _ _)
    have hb2 : ∀ x ∈ purge (t - rl.windowMs) ((rl.requests k0).getD []), x ≤ t := by
      intro x hx
      exact le_trans (hstored.2 x ((purge_sublist _ _).subset hx)) hbt
    by_cases hc : ((purge (t - rl.windowMs) ((rl.requests k0).getD [])).length : Int) <
        rl.maxRequests
    · rw [if_pos hc] at hl2
      rw [← hl2]
      constructor
      · refine List.pairwise_append.mpr ⟨hp, List.pairwise_singleton _ _, ?_⟩
        intro x hx y hy
        rw [List.mem_singleton] at hy
        rw [hy]
        exact hb2 x hx
      · intro x hx
        rcases List.mem_append.mp hx with h1 | h1
        · exact hb2 x h1
        · rw [List.mem_singleton] at h1
          rw [h1]
    · rw [if_neg hc] at hl2
      rw [← hl2]
      exact ⟨hp, hb2⟩
  · rw [if_neg hk] at hl
    have h2 := h k l hl
    exact ⟨h2.1, fun x hx => le_trans (h2.2 x hx) hbt⟩

theorem sortedBounded_reset (rl : RateLimiter) (b : Int) (k0 : Key)
    (h : SortedBounded rl b) : SortedBounded (rl.reset k0) b := by
  intro k l hl
  dsimp only [RateLimiter.reset] at hl
  by_cases hk : k = k0
  · simp [hk] at hl
  · rw [if_neg hk] at hl
    exact h k l hl

theorem sortedBounded_runOps : ∀ (ops : List Op) (rl : RateLimiter) (b : Int),
    SortedBounded rl b → (∀ x ∈ checkTimes ops, b ≤ x) →
    (checkTimes ops).Pairwise (· ≤ ·) →
    ∃ b2, SortedBounded (runOps rl ops) b2 := by
  intro ops
  induction ops with
  | nil => intro rl b h _ _; exact ⟨b, h⟩
  | cons op rest ih =>
    intro rl b h hmem hpw
    cases op with
    | check ip now =>
      rw [checkTimes] at hmem hpw
      have hbn : b ≤ now := hmem now (List.mem_cons_self now (checkTimes rest))
      rw [List.pairwise_cons] at hpw
      rw [runOps_cons]
      exact ih _ now (sortedBounded_isAllowed rl b now ip h hbn) hpw.1 hpw.2
    | reset ip =>
      rw [checkTimes] at hmem hpw
      rw [runOps_cons]
      exact ih _ b (sortedBounded_reset rl b ip h) hmem hpw
    | stats ip now =>
      rw [checkTimes] at hmem hpw
      rw [runOps_cons, show applyOp rl (Op.stats ip now) = rl from getStats_state rl ip now]
      exact ih rl b h hmem hpw

/-- C9 amended: the strictly-increasing claim fails when `check` instants
coincide; what holds is that, for every sequence of calls whose `check`
instants are nondecreasing in call order, every stored timestamp list is
sorted in nondecreasing order after each operation (equal adjacent entries
arise exactly from coinciding instants). -/
theorem timestamps_sorted (maxR W : Int) (ops : List Op)
    (h : (checkTimes ops).Pairwise (· ≤ ·)) (k : Key) (l : List Int)
    (hl : (runOps (RateLimiter.new maxR W) ops).requests k = some l) :
    l.Pairwise (· ≤ ·) := by
  have hinit : ∀ b : Int, SortedBounded (RateLimiter.new maxR W) b := by
    intro b k2 l2 h2
    simp [RateLimiter.new] at h2
  cases hct : checkTimes ops with
  | nil =>
    obtain ⟨b2, hsb⟩ := sortedBounded_runOps ops (RateLimiter.new maxR W) 0 (hinit 0)
      (by rw [hct]; intro x hx; cases hx) (by rw [hct]; exact List.Pairwise.nil)
    exact (hsb k l hl).1
  | cons t rest =>
    rw [hct] at h
    rw [List.pairwise_cons] at h
    obtain ⟨b2, hsb⟩ := sortedBounded_runOps ops (RateLimiter.new maxR W) t (hinit t)
      (by
        rw [hct]
        intro x hx
        rcases List.mem_cons.mp hx with h1 | h1
        · rw [h1]
        · exact h.1 x h1)
      (by rw [hct]; exact List.pairwise_cons.mpr h)
    exact (hsb k l hl).1

/-- C9 amended witness: three checks at nondecreasing instants 5, 5, 7 leave
the stored list `[5, 5, 7]`, which is sorted in nondecreasing order. -/
theorem timestamps_sorted_witness :
    List.Pairwise (· ≤ ·) ([5, 5, 7] : List Int) :=
  timestamps_sorted 3 10000 [Op.check keyA 5, Op.check keyA 5, Op.check keyA 7]
    (by decide) keyA [5, 5, 7] (by decide)
